import Mathlib

/-!
Verification of the beacon in-memory fuzzy-search engine (`beacon.go`).

The engine is embedded shallowly: Go strings are modelled as `List Char`
(`Str`), Go's `float64` scores as `ℚ` (all score arithmetic in the source is
exact decimal/rational arithmetic on small values, so `ℚ` matches the
intended real-number semantics; the one `NaN` corner is noted where it
occurs), Go's `map[string]bool` sets as `Finset Str`, and the generic
`Searchable` interface as a type class.  Unicode NFC normalization is an
external primitive of the source (`golang.org/x/text`); it is modelled as
the identity, and `strings.ToLower` / `unicode.IsUpper` are modelled on the
ASCII range via `Char.toLower` / `Char.isUpper`.
-/

namespace Beacon

/-- Strings are modelled as lists of characters. -/
abbrev Str := List Char

/-- Whitespace predicate used by `strings.Fields`, `strings.TrimSpace` and
`strings.FieldsFunc` (`unicode.IsSpace`): space, tab, newline, vertical tab,
form feed, carriage return, NEL and NBSP. -/
def isSpace (c : Char) : Bool :=
  c = ' ' || c = '\t' || c = '\n' || c = '\x0b' || c = '\x0c' || c = '\r' ||
    c = '\u0085' || c = '\u00a0'

/-- The apostrophe character used by the `'%s'` format verbs in messages. -/
def quoteChar : Char := Char.ofNat 39

/-- Model of `strings.ToLower` (ASCII range). -/
def toLowerStr (s : Str) : Str := s.map Char.toLower

/-- Accumulator-based splitter: `fieldsAux p s acc` splits `s` at characters
satisfying `p`, dropping empty fields; `acc` holds the current field in
reverse.  This is the functional reading of the splitting loops behind
`strings.Fields` / `strings.FieldsFunc`. -/
def fieldsAux (p : Char → Bool) : Str → Str → List Str
  | [], acc => if acc = [] then [] else [acc.reverse]
  | c :: cs, acc =>
    if p c then
      if acc = [] then fieldsAux p cs [] else acc.reverse :: fieldsAux p cs []
    else fieldsAux p cs (c :: acc)

/-- Model of `strings.FieldsFunc` (empty fields are never produced). -/
def fieldsFunc (p : Char → Bool) (s : Str) : List Str := fieldsAux p s []

/-- Model of `strings.Fields`: split on whitespace. -/
def fields (s : Str) : List Str := fieldsFunc isSpace s

/-- Model of `strings.TrimSpace`. -/
def trimSpace (s : Str) : Str :=
  ((s.dropWhile isSpace).reverse.dropWhile isSpace).reverse

/-- `normalizeText` from the source: Unicode NFC normalization (an external
primitive, modelled as the identity) followed by collapsing whitespace runs
to single spaces and trimming (`strings.Join(strings.Fields(s), " ")`). -/
def normalizeText (text : Str) : Str :=
  List.intercalate (" ".toList) (fields text)

/-- `extractWords` from the source: split on whitespace and on `-`, `,`, `.`,
then drop empty strings (the final filter is redundant but mirrored). -/
def extractWords (text : Str) : List Str :=
  (fieldsFunc (fun r => isSpace r || r = '-' || r = ',' || r = '.') text).filter
    fun word => !word.isEmpty

/-- `createWordSet` from the source: the set of the words. -/
def createWordSet (words : List Str) : Finset Str := words.toFinset

/-- `createCharNgrams` from the source: for text shorter than `n` the
singleton of the raw text; otherwise all length-`n` windows of the text
padded on both ends with `n-1` sentinel characters `#`
(`for i := 0; i <= len(padded)-n; i++ { ngrams[padded[i:i+n]] = true }`). -/
def createCharNgrams (text : Str) (n : ℕ) : Finset Str :=
  if text.length < n then {text}
  else
    let padding : Str := List.replicate (n - 1) '#'
    let padded : Str := padding ++ text ++ padding
    ((List.range (padded.length - n + 1)).map fun i =>
      (padded.drop i).take n).toFinset

/-- `extractFirstLetters` from the source: first character of each word. -/
def extractFirstLetters (words : List Str) : Str :=
  words.filterMap fun word => word.head?

/-- The stopword list skipped by acronym extraction (the source tests the
lowercased word against each of these literals in turn). -/
def acronymStopwords : List Str :=
  (["de", "del", "la", "el", "los", "las", "y", "e", "of", "the", "and",
    "or"]).map String.toList

/-- `extractAcronym` from the source: split the original-case text on
whitespace, skip stopwords, collect the first character of each word whose
first character is upper-case, and lowercase the result. -/
def extractAcronym (text : Str) : Str :=
  let words := fields text
  toLowerStr <| words.foldl (fun acronym word =>
    if toLowerStr word ∈ acronymStopwords then acronym
    else
      match word with
      | [] => acronym
      | c :: _ => if c.isUpper then acronym ++ [c] else acronym) []

/-- `calculateJaccardSimilarity` from the source, on string sets:
both empty gives `1.0`, exactly one empty gives `0.0`, otherwise
`|s₁ ∩ s₂| / |s₁ ∪ s₂|` with the union size computed as
`len(set1)+len(set2)-intersection` and a defensive zero-union guard. -/
def calculateJaccardSimilarity (set1 set2 : Finset Str) : ℚ :=
  if set1.card = 0 ∧ set2.card = 0 then 1.0
  else if set1.card = 0 ∨ set2.card = 0 then 0.0
  else
    let inter := (set1 ∩ set2).card
    let union := set1.card + set2.card - inter
    if union = 0 then 0.0
    else (inter : ℚ) / (union : ℚ)

/-- Model of `strings.Contains`. -/
def containsSub : Str → Str → Bool
  | [], sub => sub.isEmpty
  | c :: t, sub => sub.isPrefixOf (c :: t) || containsSub t sub

/-- Model of `strings.HasPrefix s pre` is `pre.isPrefixOf s`; substitution
cost of the Levenshtein matrix (`cost` in the source). -/
def levCost (a b : Char) : ℕ := if a = b then 0 else 1

/-- Fuel-based evaluation of the Levenshtein dynamic-programming matrix
`dist` of the source: `levMF s1 s2 f i j` is `dist[i][j]` whenever
`i + j ≤ f` (the fuel only drives structural recursion; the fallback value
`i + j` is the correct matrix value on the boundary, which is the only place
fuel can run out when `i + j ≤ f`). -/
def levMF (s1 s2 : Str) : ℕ → ℕ → ℕ → ℕ
  | 0, i, j => i + j
  | _ + 1, 0, j => j
  | _ + 1, i + 1, 0 => i + 1
  | f + 1, i + 1, j + 1 =>
    min (min (levMF s1 s2 f i (j + 1) + 1) (levMF s1 s2 f (i + 1) j + 1))
      (levMF s1 s2 f i j + levCost (s1.getD i ' ') (s2.getD j ' '))

/-- The Levenshtein matrix: `levMatrix s1 s2 i j` is `dist[i][j]`, with base
row `dist[i][0] = i`, base column `dist[0][j] = j`, and
`dist[i][j] = min(del, ins, sub)` exactly as filled by the source loop. -/
def levMatrix (s1 s2 : Str) (i j : ℕ) : ℕ := levMF s1 s2 (i + j) i j

/-- `calculateLevenshteinDistance` from the source: equal strings
short-circuit to 0, an empty string short-circuits to the other length, and
otherwise the full dynamic-programming matrix is evaluated at the corner. -/
def calculateLevenshteinDistance (s1 s2 : Str) : ℕ :=
  if s1 = s2 then 0
  else if s1.length = 0 then s2.length
  else if s2.length = 0 then s1.length
  else levMatrix s1 s2 s1.length s2.length

/-- Reference (textbook) Levenshtein recursion, used only in proofs; it is
shown to agree with the matrix evaluation of the source. -/
def lev : Str → Str → ℕ
  | [], ys => ys.length
  | xs, [] => xs.length
  | x :: xs, y :: ys =>
    min (min (lev xs (y :: ys) + 1) (lev (x :: xs) ys + 1))
      (lev xs ys + levCost x y)
termination_by xs ys => xs.length + ys.length
decreasing_by all_goals simp_arith

/-- The `Searchable` interface: items expose their primary search text and
auxiliary fields for filtering. -/
class Searchable (T : Type) where
  GetSearchText : T → Str
  GetSearchFields : T → List (Str × Str)

/-- The `Filter` interface: a predicate on items plus a description. -/
structure Filter (T : Type) where
  Matches : T → Bool
  Description : Str

/-- `SearchRequest`: query, optional filter, optional `topN` (1-10), and the
optional per-call debug flag. -/
structure SearchRequest (T : Type) where
  Query : Str
  Filters : Option (Filter T)
  TopN : Option ℤ
  Debug : Option Bool

/-- `ScoreComponents`: the eight similarity signals plus the final score. -/
structure ScoreComponents where
  ExactMatch : ℚ
  PrefixMatch : ℚ
  WordMatch : ℚ
  SubstringMatch : ℚ
  TrigramSimilarity : ℚ
  BigramSimilarity : ℚ
  AcronymMatch : ℚ
  LevenshteinSim : ℚ
  FinalScore : ℚ
deriving DecidableEq

/-- `DebugInfo`: insight into a single scoring decision. -/
structure DebugInfo where
  QueryNormalized : Str
  ScoreComponents : Option ScoreComponents
  FilteredCandidates : ℕ
  TotalCandidates : ℕ

/-- `SearchResponse`: single result (or error outcome).  A Go `nil` item
pointer is `none`; zero values of the remaining fields are `0` / `[]`. -/
structure SearchResponse (T : Type) where
  Item : Option T
  Similarity : ℚ
  Message : Str
  Error : Str
  Debug : Option DebugInfo

/-- `MultiSearchResponse`: ranked multi-result outcome. -/
structure MultiSearchResponse (T : Type) where
  Results : List (SearchResponse T)
  Query : Str
  TotalFound : ℕ
  Filters : Option (Filter T)
  Message : Str

/-- `Search` returns `interface{}` holding one of the two response shapes;
modelled as a tagged union. -/
inductive SearchOutcome (T : Type) where
  | single : SearchResponse T → SearchOutcome T
  | multi : MultiSearchResponse T → SearchOutcome T

/-- `SearchIndex`: the pre-computed per-item search data. -/
structure SearchIndex (T : Type) where
  Item : T
  NormalizedText : Str
  LowercaseText : Str
  Words : List Str
  WordSet : Finset Str
  Trigrams : Finset Str
  Bigrams : Finset Str
  FirstLetters : Str
  Acronym : Str
  TextLength : ℕ
deriving DecidableEq

/-- `ImprovedSearcher`: the engine state built by `NewImprovedSearcher`. -/
structure ImprovedSearcher (T : Type) where
  items : List T
  searchIndex : List (SearchIndex T)
  debugMode : Bool
  minSimilarity : ℚ

/-- The per-item body of the `NewImprovedSearcher` indexing loop. -/
def buildIndex {T : Type} [Searchable T] (item : T) : SearchIndex T :=
  let searchText := Searchable.GetSearchText item
  let normalizedText := normalizeText searchText
  let lowercaseText := toLowerStr normalizedText
  let words := extractWords lowercaseText
  ⟨item, normalizedText, lowercaseText, words, createWordSet words,
    createCharNgrams lowercaseText 3, createCharNgrams lowercaseText 2,
    extractFirstLetters words, extractAcronym searchText,
    lowercaseText.length⟩

/-- `NewImprovedSearcher`: index every item (order-preserving) and store the
threshold and debug flag. -/
def NewImprovedSearcher {T : Type} [Searchable T] (items : List T)
    (minSimilarity : ℚ) (debugMode : Bool) : ImprovedSearcher T :=
  ⟨items, items.map buildIndex, debugMode, minSimilarity⟩

/-- Scoring component 1, exact match (`idx.LowercaseText == queryLower`). -/
def exactMatchScore {T : Type} (idx : SearchIndex T) (queryLower : Str) : ℚ :=
  if idx.LowercaseText = queryLower then 1.0 else 0

/-- Scoring component 2: `0.9` when the candidate text starts with the full
query, else `0.5` when the query has at least 3 characters and the candidate
text starts with its first 3 characters. -/
def prefixMatchScore {T : Type} (idx : SearchIndex T) (queryLower : Str) : ℚ :=
  if queryLower.isPrefixOf idx.LowercaseText then 0.9
  else if 3 ≤ queryLower.length ∧ (queryLower.take 3).isPrefixOf idx.LowercaseText
    then 0.5
  else 0

/-- One round of the inner word-matching loop: a query word counts as
matched on the first candidate word that equals it, or that it prefixes when
it has at least 3 characters (`break` on first hit). -/
def wordHasMatch (qWord : Str) (sWords : List Str) : Bool :=
  sWords.any fun sWord =>
    sWord == qWord || (decide (3 ≤ qWord.length) && qWord.isPrefixOf sWord)

/-- `matchedWords` of the scoring loop: how many query words found a hit. -/
def matchedWordCount (queryWords sWords : List Str) : ℕ :=
  (queryWords.filter fun qWord => wordHasMatch qWord sWords).length

/-- Scoring component 3, word-level match: `matched/total`, with a `×1.2`
bonus clamped to `1.0` when every query word matched; `0` when the query has
no words. -/
def wordMatchScore {T : Type} (idx : SearchIndex T) (queryWords : List Str) : ℚ :=
  let matchedWords := matchedWordCount queryWords idx.Words
  let totalWords := queryWords.length
  if 0 < totalWords then
    let wm : ℚ := (matchedWords : ℚ) / (totalWords : ℚ)
    if matchedWords = totalWords then min (wm * 1.2) 1.0 else wm
  else 0

/-- Scoring component 4, substring match: `0.7 + 0.3·len(query)/len(text)`
when the candidate text contains the query.  (When `TextLength = 0` — which
requires both query and text empty — the Go code computes `NaN` here, and
`NaN` then fails every `> 0` and `>= 0.8` comparison downstream, which is
observably the same as the `0` produced by this guard.) -/
def substringMatchScore {T : Type} (idx : SearchIndex T) (queryLower : Str) : ℚ :=
  if containsSub idx.LowercaseText queryLower ∧ 0 < idx.TextLength then
    0.7 + 0.3 * ((queryLower.length : ℚ) / (idx.TextLength : ℚ))
  else 0

/-- Scoring component 6, acronym match: `0.8` on exact equality of the two
acronyms, requiring the query acronym to be non-empty. -/
def acronymMatchScore {T : Type} (idx : SearchIndex T) (queryAcronym : Str) : ℚ :=
  if queryAcronym ≠ [] ∧ queryAcronym = idx.Acronym then 0.8 else 0

/-- Scoring component 7, normalized Levenshtein similarity
`1 - dist/max(len(query), len(text))`, guarded against a zero maximum. -/
def levenshteinSimScore {T : Type} (idx : SearchIndex T) (queryLower : Str) : ℚ :=
  let levDist := calculateLevenshteinDistance queryLower idx.LowercaseText
  let maxLen := max queryLower.length idx.TextLength
  if 0 < maxLen then 1.0 - ((levDist : ℚ) / (maxLen : ℚ)) else 0

/-- The eight components computed by `calculateScore` (lines 1-7 of its
body), before the weighted combination; `FinalScore` still zero. -/
def componentsOf {T : Type} (idx : SearchIndex T) (queryLower : Str)
    (queryWords : List Str) (queryTrigrams queryBigrams : Finset Str)
    (queryAcronym : Str) : ScoreComponents :=
  ⟨exactMatchScore idx queryLower,
   prefixMatchScore idx queryLower,
   wordMatchScore idx queryWords,
   substringMatchScore idx queryLower,
   calculateJaccardSimilarity queryTrigrams idx.Trigrams,
   calculateJaccardSimilarity queryBigrams idx.Bigrams,
   acronymMatchScore idx queryAcronym,
   levenshteinSimScore idx queryLower,
   0⟩

/-- The running `weightedSum` of the combination step: each strictly
positive component contributes `value × weight` (weights: exact 1.0,
prefix 0.9, word 0.85, substring 0.75, trigram 0.6, bigram 0.4,
acronym 0.7, levenshtein 0.5). -/
def scoreWeightedSum (c : ScoreComponents) : ℚ :=
  (if 0 < c.ExactMatch then c.ExactMatch * 1.0 else 0) +
  (if 0 < c.PrefixMatch then c.PrefixMatch * 0.9 else 0) +
  (if 0 < c.WordMatch then c.WordMatch * 0.85 else 0) +
  (if 0 < c.SubstringMatch then c.SubstringMatch * 0.75 else 0) +
  (if 0 < c.TrigramSimilarity then c.TrigramSimilarity * 0.6 else 0) +
  (if 0 < c.BigramSimilarity then c.BigramSimilarity * 0.4 else 0) +
  (if 0 < c.AcronymMatch then c.AcronymMatch * 0.7 else 0) +
  (if 0 < c.LevenshteinSim then c.LevenshteinSim * 0.5 else 0)

/-- The running `totalWeight` of the combination step: each strictly
positive component contributes its weight. -/
def scoreTotalWeight (c : ScoreComponents) : ℚ :=
  (if 0 < c.ExactMatch then (1.0 : ℚ) else 0) +
  (if 0 < c.PrefixMatch then (0.9 : ℚ) else 0) +
  (if 0 < c.WordMatch then (0.85 : ℚ) else 0) +
  (if 0 < c.SubstringMatch then (0.75 : ℚ) else 0) +
  (if 0 < c.TrigramSimilarity then (0.6 : ℚ) else 0) +
  (if 0 < c.BigramSimilarity then (0.4 : ℚ) else 0) +
  (if 0 < c.AcronymMatch then (0.7 : ℚ) else 0) +
  (if 0 < c.LevenshteinSim then (0.5 : ℚ) else 0)

/-- The final score as first assigned (`weightedSum / totalWeight`), before
the two corrective bonuses; `0` when no component is positive (the
`FinalScore` field keeps its zero value in that case). -/
def scorePreBonus (c : ScoreComponents) : ℚ :=
  if 0 < scoreTotalWeight c then scoreWeightedSum c / scoreTotalWeight c
  else 0

/-- The combination step of `calculateScore`: the pre-bonus ratio, then
bonus (a) — force `1.0` for an exact match of a query of length at most
10 — then bonus (b) — multiply by `1.1` and clamp to `1.0` when the word
match is at least `0.8` and the substring component is positive.  Both
bonuses live inside the `totalWeight > 0` branch, as in the source. -/
def scorerCombine (queryLower : Str) (c : ScoreComponents) : ℚ :=
  if 0 < scoreTotalWeight c then
    let f1 :=
      if queryLower.length ≤ 10 ∧ 0 < c.ExactMatch then 1.0
      else scorePreBonus c
    if 0.8 ≤ c.WordMatch ∧ 0 < c.SubstringMatch then min (f1 * 1.1) 1.0
    else f1
  else 0

/-- `calculateScore` from the source: the eight components followed by the
weighted combination and bonuses.  (`queryWordSet` is a parameter of the Go
function but is never read by its body; it is kept for fidelity.) -/
def calculateScore {T : Type} (idx : SearchIndex T) (queryLower : Str)
    (queryWords : List Str) (queryWordSet : Finset Str)
    (queryTrigrams queryBigrams : Finset Str) (queryAcronym : Str) :
    ScoreComponents :=
  let c := componentsOf idx queryLower queryWords queryTrigrams queryBigrams
    queryAcronym
  ⟨c.ExactMatch, c.PrefixMatch, c.WordMatch, c.SubstringMatch,
   c.TrigramSimilarity, c.BigramSimilarity, c.AcronymMatch, c.LevenshteinSim,
   scorerCombine queryLower c⟩

/-- `filterItems` from the source: all indexed items when no filter is
supplied, otherwise those whose item satisfies the filter predicate. -/
def filterItems {T : Type} (is : ImprovedSearcher T) :
    Option (Filter T) → List (SearchIndex T)
  | none => is.searchIndex
  | some flt => is.searchIndex.filter fun idx => flt.Matches idx.Item

/-- The query-side preparation of `Search` (normalize, lowercase, words,
word set, n-grams, acronym-from-raw-query) followed by `calculateScore`
against one candidate. -/
def scoreAgainst {T : Type} (idx : SearchIndex T) (query : Str) :
    ScoreComponents :=
  let normalizedQuery := normalizeText query
  let lowercaseQuery := toLowerStr normalizedQuery
  let queryWords := extractWords lowercaseQuery
  calculateScore idx lowercaseQuery queryWords (createWordSet queryWords)
    (createCharNgrams lowercaseQuery 3) (createCharNgrams lowercaseQuery 2)
    (extractAcronym query)

/-- The candidate-scoring loop of `Search`: every candidate is scored, and a
scored candidate is kept exactly when its final score reaches the coarse
threshold `minSimilarity × 0.5`. -/
def thresholdResults {T : Type} (is : ImprovedSearcher T) (query : Str)
    (candidates : List (SearchIndex T)) :
    List (SearchIndex T × ScoreComponents) :=
  (candidates.map fun idx => (idx, scoreAgainst idx query)).filter
    fun r => decide (is.minSimilarity * 0.5 ≤ r.2.FinalScore)

/-- The ordering used by the sort in `Search` (`results[i].score >
results[j].score` as the strict "less" of an unstable sort ≡ sorting into
non-increasing final-score order). -/
abbrev scoreOrder {T : Type} (a b : SearchIndex T × ScoreComponents) : Prop :=
  b.2.FinalScore ≤ a.2.FinalScore

instance {T : Type} : DecidableRel (@scoreOrder T) := fun a b =>
  inferInstanceAs (Decidable (_ ≤ _))

instance {T : Type} : IsTotal (SearchIndex T × ScoreComponents) scoreOrder :=
  ⟨fun a b => le_total b.2.FinalScore a.2.FinalScore⟩

instance {T : Type} : IsTrans (SearchIndex T × ScoreComponents) scoreOrder :=
  ⟨fun _ _ _ h1 h2 => le_trans h2 h1⟩

/-- The `topN` clamp of `Search`: default 1, then clamped into `[1,10]`. -/
def clampTopN : Option ℤ → ℤ
  | none => 1
  | some v => if v < 1 then 1 else if 10 < v then 10 else v

/-- The effective `topN`: the clamp, further capped by the number of
surviving results (`if topN > len(results) { topN = len(results) }`). -/
def effectiveTopN (t : Option ℤ) (resultCount : ℕ) : ℕ :=
  min (clampTopN t).toNat resultCount

/-- A `SearchResponse` carrying only an error message (all other Go fields
keep their zero values). -/
def emptyResponse {T : Type} (msg : Str) : SearchResponse T :=
  ⟨none, 0, [], msg, none⟩

/-- The error message when the filter removes every item. -/
def noItemsMessage {T : Type} : Option (Filter T) → Str
  | none => "No items found matching the filter criteria".toList
  | some flt => "No items found matching filter: ".toList ++ flt.Description

/-- The error message `No matches found for '<query>'`. -/
def noMatchesMessage (query : Str) : Str :=
  "No matches found for ".toList ++ (quoteChar :: query) ++ [quoteChar]

/-- Whether debug info is attached: engine-wide flag or per-call flag. -/
def debugEnabled {T : Type} (is : ImprovedSearcher T)
    (req : SearchRequest T) : Bool :=
  is.debugMode || (match req.Debug with | some d => d | none => false)

/-- Decimal rendering of `x` with two fractional digits, modelling the
`%.2f` format verb (round-half-up standing in for the float formatting; no
verified property depends on this rendering). -/
def formatFixed2 (x : ℚ) : Str :=
  let m : ℤ := ⌊x * 100 + 1 / 2⌋
  (toString (m / 100)).toList ++ ".".toList ++
    (if m % 100 < 10 then "0".toList else []) ++ (toString (m % 100)).toList

/-- Message of the single-result outcome
(`Found item with %.2f%% similarity`). -/
def singleMessage (score : ℚ) : Str :=
  "Found item with ".toList ++ formatFixed2 (score * 100) ++
    "% similarity".toList

/-- Per-rank message of the multi-result outcome
(`Rank %d with %.2f%% similarity`). -/
def rankMessage (rank : ℕ) (score : ℚ) : Str :=
  "Rank ".toList ++ (toString rank).toList ++ " with ".toList ++
    formatFixed2 (score * 100) ++ "% similarity".toList

/-- The ` with filter: <description>` suffix of the multi-result message. -/
def filterSuffix {T : Type} : Option (Filter T) → Str
  | none => []
  | some flt => " with filter: ".toList ++ flt.Description

/-- The multi-result message
(`Found %d items%s matching '%s'`). -/
def foundMessage (count : ℕ) (suffix query : Str) : Str :=
  "Found ".toList ++ (toString count).toList ++ " items".toList ++ suffix ++
    " matching ".toList ++ (quoteChar :: query) ++ [quoteChar]

/-- The per-result debug payload. -/
def mkDebugInfo (normalizedQuery : Str) (c : ScoreComponents)
    (filteredCount totalCount : ℕ) : DebugInfo :=
  ⟨normalizedQuery, some c, filteredCount, totalCount⟩

/-- The surviving candidates of a call, sorted by final score descending
(`sort.Slice(results, ...score > ...score)`). -/
def searchResults {T : Type} (is : ImprovedSearcher T)
    (req : SearchRequest T) : List (SearchIndex T × ScoreComponents) :=
  List.insertionSort scoreOrder
    (thresholdResults is req.Query (filterItems is req.Filters))

/-- `Search` from the source: validate the query, filter candidates, score
them against the coarse threshold, sort by final score descending, clamp
`topN`, and build the error / single / multi outcome.  (The `[]` case of the
final `match` is unreachable: it is only consulted when the effective topN
is exactly 1, which forces at least one surviving result.) -/
def Search {T : Type} (is : ImprovedSearcher T) (req : SearchRequest T) :
    SearchOutcome T :=
  if trimSpace req.Query = [] then
    .single (emptyResponse "Query cannot be empty".toList)
  else
    let normalizedQuery := normalizeText req.Query
    let candidates := filterItems is req.Filters
    if candidates.isEmpty then
      .single (emptyResponse (noItemsMessage req.Filters))
    else
      let results := searchResults is req
      let topN := effectiveTopN req.TopN results.length
      if topN = 0 then
        .single (emptyResponse (noMatchesMessage req.Query))
      else if 1 < topN then
        .multi
          ⟨(results.take topN).enum.map fun p =>
              ⟨some p.2.1.Item, p.2.2.FinalScore,
               rankMessage (p.1 + 1) p.2.2.FinalScore, [],
               if debugEnabled is req then
                 some (mkDebugInfo normalizedQuery p.2.2 candidates.length
                   is.searchIndex.length)
               else none⟩,
            req.Query, candidates.length, req.Filters,
            foundMessage candidates.length (filterSuffix req.Filters)
              req.Query⟩
      else
        match results with
        | [] => .single (emptyResponse (noMatchesMessage req.Query))
        | best :: _ =>
          .single
            ⟨some best.1.Item, best.2.FinalScore,
             singleMessage best.2.FinalScore, [],
             if debugEnabled is req then
               some (mkDebugInfo normalizedQuery best.2 candidates.length
                 is.searchIndex.length)
             else none⟩

/-- `Search` as a state transformer on the receiver, modelling the Go
pointer-receiver method: the body of `Search` never assigns to any receiver
field, so the threaded searcher state is returned unchanged alongside the
outcome. -/
def SearchSt {T : Type} (is : ImprovedSearcher T) (req : SearchRequest T) :
    ImprovedSearcher T × SearchOutcome T :=
  (is, Search is req)

/-- The component stage of `scoreAgainst`: the eight components a candidate
receives against a raw query, before combination. -/
def componentsAgainst {T : Type} (idx : SearchIndex T) (query : Str) :
    ScoreComponents :=
  let normalizedQuery := normalizeText query
  let lowercaseQuery := toLowerStr normalizedQuery
  componentsOf idx lowercaseQuery (extractWords lowercaseQuery)
    (createCharNgrams lowercaseQuery 3) (createCharNgrams lowercaseQuery 2)
    (extractAcronym query)

/-- Spec-side view of the combination step: the eight (value, weight) pairs
in source order. -/
def specComponentPairs (c : ScoreComponents) : List (ℚ × ℚ) :=
  [(c.ExactMatch, 1.0), (c.PrefixMatch, 0.9), (c.WordMatch, 0.85),
   (c.SubstringMatch, 0.75), (c.TrigramSimilarity, 0.6),
   (c.BigramSimilarity, 0.4), (c.AcronymMatch, 0.7),
   (c.LevenshteinSim, 0.5)]

/-- Spec-side view: the strictly positive components with their weights. -/
def specPositive (c : ScoreComponents) : List (ℚ × ℚ) :=
  (specComponentPairs c).filter fun p => decide (0 < p.1)

/-- Spec-side view of the claimed final score: the weighted sum of the
strictly positive components divided by the sum of those components'
weights, and `0` when no component is positive. -/
def specFinalScore (c : ScoreComponents) : ℚ :=
  if specPositive c = [] then 0
  else ((specPositive c).map fun p => p.1 * p.2).sum /
    ((specPositive c).map fun p => p.2).sum

/-- A concrete searchable item type used for witnesses. -/
structure TestItem where
  text : Str
deriving DecidableEq

instance : Searchable TestItem := ⟨TestItem.text, fun _ => []⟩

/-- The item of the acronym scenario. -/
def lotrItem : TestItem := ⟨"The Lord of the Rings".toList⟩

/-- One-letter item. -/
def itemA : TestItem := ⟨"a".toList⟩

/-- Short mixed-case item. -/
def itemHi : TestItem := ⟨"Hi".toList⟩

/-- Two-letter item sharing no characters with the query `xy`. -/
def itemAB : TestItem := ⟨"ab".toList⟩

section CombinationLemmas

/-- Pulling one pair out of the positive-filtered weighted sum. -/
lemma filter_map_sum_cons (p : ℚ × ℚ) (l : List (ℚ × ℚ)) (f : ℚ × ℚ → ℚ) :
    (((p :: l).filter fun q => decide (0 < q.1)).map f).sum =
      (if 0 < p.1 then f p else 0) +
        ((l.filter fun q => decide (0 < q.1)).map f).sum := by
  by_cases h : 0 < p.1 <;> simp [List.filter_cons, h]

/-- A conditional weight contribution is nonnegative. -/
lemma ite_contrib_nonneg (x w : ℚ) (hw : 0 ≤ w) :
    0 ≤ if 0 < x then w else 0 := by
  split
  · exact hw
  · exact le_refl 0

/-- The running `weightedSum` agrees with the spec-side filtered sum. -/
lemma scoreWeightedSum_eq_spec (c : ScoreComponents) :
    scoreWeightedSum c = ((specPositive c).map fun p => p.1 * p.2).sum := by
  simp only [specPositive, specComponentPairs, filter_map_sum_cons,
    List.filter_nil, List.map_nil, List.sum_nil, add_zero]
  simp only [scoreWeightedSum]
  ring

/-- The running `totalWeight` agrees with the spec-side filtered sum of
weights. -/
lemma scoreTotalWeight_eq_spec (c : ScoreComponents) :
    scoreTotalWeight c = ((specPositive c).map fun p => p.2).sum := by
  simp only [specPositive, specComponentPairs, filter_map_sum_cons,
    List.filter_nil, List.map_nil, List.sum_nil, add_zero]
  simp only [scoreTotalWeight]
  ring

/-- No positive component at all means a zero `totalWeight`. -/
lemma scoreTotalWeight_eq_zero (c : ScoreComponents)
    (h : specPositive c = []) : scoreTotalWeight c = 0 := by
  rw [specPositive, specComponentPairs, List.filter_eq_nil_iff] at h
  have h1 : ¬0 < c.ExactMatch := by simpa using h (c.ExactMatch, 1.0) (by simp)
  have h2 : ¬0 < c.PrefixMatch := by
    simpa using h (c.PrefixMatch, 0.9) (by simp)
  have h3 : ¬0 < c.WordMatch := by simpa using h (c.WordMatch, 0.85) (by simp)
  have h4 : ¬0 < c.SubstringMatch := by
    simpa using h (c.SubstringMatch, 0.75) (by simp)
  have h5 : ¬0 < c.TrigramSimilarity := by
    simpa using h (c.TrigramSimilarity, 0.6) (by simp)
  have h6 : ¬0 < c.BigramSimilarity := by
    simpa using h (c.BigramSimilarity, 0.4) (by simp)
  have h7 : ¬0 < c.AcronymMatch := by
    simpa using h (c.AcronymMatch, 0.7) (by simp)
  have h8 : ¬0 < c.LevenshteinSim := by
    simpa using h (c.LevenshteinSim, 0.5) (by simp)
  simp only [scoreTotalWeight, if_neg h1, if_neg h2, if_neg h3, if_neg h4,
    if_neg h5, if_neg h6, if_neg h7, if_neg h8, add_zero]

/-- A positive component forces a positive `totalWeight`. -/
lemma scoreTotalWeight_pos (c : ScoreComponents)
    (h : specPositive c ≠ []) : 0 < scoreTotalWeight c := by
  obtain ⟨p, hp⟩ := List.exists_mem_of_ne_nil _ h
  rw [specPositive, List.mem_filter, decide_eq_true_eq] at hp
  obtain ⟨hmem, hpos⟩ := hp
  have n1 := ite_contrib_nonneg c.ExactMatch (1.0 : ℚ) (by norm_num)
  have n2 := ite_contrib_nonneg c.PrefixMatch (0.9 : ℚ) (by norm_num)
  have n3 := ite_contrib_nonneg c.WordMatch (0.85 : ℚ) (by norm_num)
  have n4 := ite_contrib_nonneg c.SubstringMatch (0.75 : ℚ) (by norm_num)
  have n5 := ite_contrib_nonneg c.TrigramSimilarity (0.6 : ℚ) (by norm_num)
  have n6 := ite_contrib_nonneg c.BigramSimilarity (0.4 : ℚ) (by norm_num)
  have n7 := ite_contrib_nonneg c.AcronymMatch (0.7 : ℚ) (by norm_num)
  have n8 := ite_contrib_nonneg c.LevenshteinSim (0.5 : ℚ) (by norm_num)
  simp only [specComponentPairs, List.mem_cons, List.not_mem_nil,
    or_false] at hmem
  unfold scoreTotalWeight
  rcases hmem with h' | h' | h' | h' | h' | h' | h' | h'
  · subst h'; rw [if_pos (show 0 < c.ExactMatch from hpos)]; linarith
  · subst h'; rw [if_pos (show 0 < c.PrefixMatch from hpos)]; linarith
  · subst h'; rw [if_pos (show 0 < c.WordMatch from hpos)]; linarith
  · subst h'; rw [if_pos (show 0 < c.SubstringMatch from hpos)]; linarith
  · subst h'; rw [if_pos (show 0 < c.TrigramSimilarity from hpos)]; linarith
  · subst h'; rw [if_pos (show 0 < c.BigramSimilarity from hpos)]; linarith
  · subst h'; rw [if_pos (show 0 < c.AcronymMatch from hpos)]; linarith
  · subst h'; rw [if_pos (show 0 < c.LevenshteinSim from hpos)]; linarith

/-- The pre-bonus final score is exactly the spec-side weighted average of
the strictly positive components. -/
lemma scorePreBonus_eq_spec (c : ScoreComponents) :
    scorePreBonus c = specFinalScore c := by
  by_cases h : specPositive c = []
  · rw [scorePreBonus, if_neg, specFinalScore, if_pos h]
    rw [scoreTotalWeight_eq_zero c h]
    exact lt_irrefl 0
  · rw [scorePreBonus, if_pos (scoreTotalWeight_pos c h), specFinalScore,
      if_neg h, scoreWeightedSum_eq_spec, scoreTotalWeight_eq_spec]

end CombinationLemmas

/-- Claim C10: `Search` leaves the searcher's state — items, the
precomputed search index, the minimum-similarity threshold and the debug
flag — unchanged: the state threaded through the call comes back equal to
the state before the call. -/
theorem search_preserves_searcher_state {T : Type} (is : ImprovedSearcher T)
    (req : SearchRequest T) :
    (SearchSt is req).1.items = is.items ∧
    (SearchSt is req).1.searchIndex = is.searchIndex ∧
    (SearchSt is req).1.minSimilarity = is.minSimilarity ∧
    (SearchSt is req).1.debugMode = is.debugMode :=
  ⟨rfl, rfl, rfl, rfl⟩

/-- Claim C6: for n ∈ {2,3}, the n-gram generator returns `{text}` when the
text is shorter than n, otherwise the set of every contiguous length-n
substring of the `#`-padded text; the result is never empty. -/
theorem createCharNgrams_spec (text : Str) (n : ℕ) (hn : n = 2 ∨ n = 3) :
    (text.length < n → createCharNgrams text n = {text}) ∧
    (n ≤ text.length → ∀ w : Str,
      w ∈ createCharNgrams text n ↔
        (w.length = n ∧
          w <:+: (List.replicate (n - 1) '#' ++ text ++
            List.replicate (n - 1) '#'))) ∧
    createCharNgrams text n ≠ ∅ := by
  clear hn
  refine ⟨fun hlt => ?_, fun hge w => ?_, ?_⟩
  · rw [createCharNgrams, if_pos hlt]
  · rw [createCharNgrams, if_neg (not_lt.mpr hge)]
    simp only [List.mem_toFinset, List.mem_map, List.mem_range]
    set L : Str := List.replicate (n - 1) '#' ++ text ++
      List.replicate (n - 1) '#' with hL
    have hnL : n ≤ L.length := by
      rw [hL]
      simp only [List.length_append, List.length_replicate]
      omega
    constructor
    · rintro ⟨i, hi, rfl⟩
      have hin : i + n ≤ L.length := by omega
      refine ⟨by rw [List.length_take, List.length_drop]; omega, ?_⟩
      exact ⟨L.take i, (L.drop i).drop n, by
        rw [List.append_assoc, List.take_append_drop, List.take_append_drop]⟩
    · rintro ⟨hw, s, t, hst⟩
      refine ⟨s.length, ?_, ?_⟩
      · have hlen := congrArg List.length hst
        simp only [List.length_append, hw] at hlen
        omega
      · rw [← hst, List.append_assoc, List.drop_left]
        exact List.take_left' hw
  · by_cases hlt : text.length < n
    · rw [createCharNgrams, if_pos hlt]
      exact Finset.singleton_ne_empty _
    · rw [createCharNgrams, if_neg hlt]
      exact Finset.ne_empty_of_mem (List.mem_toFinset.mpr
        (List.mem_map.mpr ⟨0, List.mem_range.mpr (Nat.succ_pos _), rfl⟩))

/-- Witness for C6 at `text = "ab"`, `n = 2`. -/
theorem createCharNgrams_spec_witness :
    createCharNgrams ("ab".toList) 2 ≠ ∅ :=
  (createCharNgrams_spec ("ab".toList) 2 (Or.inl rfl)).2.2

/-- Claim C7: Jaccard similarity of a set with itself is 1 (both-empty
included); disjoint sets with at least one of them non-empty — in
particular exactly-one-empty pairs — get similarity 0. -/
theorem jaccard_self_and_disjoint :
    (∀ s : Finset Str, calculateJaccardSimilarity s s = 1) ∧
    calculateJaccardSimilarity ∅ ∅ = 1 ∧
    (∀ s t : Finset Str, s ∩ t = ∅ → s ≠ ∅ ∨ t ≠ ∅ →
      calculateJaccardSimilarity s t = 0) := by
  refine ⟨fun s => ?_, by norm_num [calculateJaccardSimilarity], ?_⟩
  · by_cases hs : s.card = 0
    · rw [calculateJaccardSimilarity, if_pos ⟨hs, hs⟩]
      norm_num
    · rw [calculateJaccardSimilarity, if_neg (by tauto), if_neg (by tauto)]
      simp only [Finset.inter_self]
      rw [if_neg (by omega)]
      have hcc : s.card + s.card - s.card = s.card := by omega
      rw [hcc, div_self (by exact_mod_cast hs)]
  · intro s t hint hne
    have hic : (s ∩ t).card = 0 := by rw [hint]; exact Finset.card_empty
    have hnotboth : ¬(s.card = 0 ∧ t.card = 0) := by
      rintro ⟨h1, h2⟩
      rcases hne with h | h
      · exact h (Finset.card_eq_zero.mp h1)
      · exact h (Finset.card_eq_zero.mp h2)
    by_cases hs : s.card = 0
    · rw [calculateJaccardSimilarity, if_neg hnotboth, if_pos (Or.inl hs)]
      norm_num
    · by_cases ht : t.card = 0
      · rw [calculateJaccardSimilarity, if_neg hnotboth, if_pos (Or.inr ht)]
        norm_num
      · rw [calculateJaccardSimilarity, if_neg hnotboth, if_neg (by tauto)]
        simp only [hic]
        rw [if_neg (by omega)]
        norm_num

/-- Witness for C7: two disjoint singleton string sets get similarity 0. -/
theorem jaccard_self_and_disjoint_witness :
    calculateJaccardSimilarity {("a".toList)} {("b".toList)} = 0 :=
  jaccard_self_and_disjoint.2.2 {("a".toList)} {("b".toList)}
    (by with_unfolding_all decide) (Or.inl (by with_unfolding_all decide))

/-- Claim C4 fails on the code: for the query `lotr` against `The Lord of
the Rings`, the stored acronym is not `lotr` and the acronym component is
not `0.8`. -/
theorem acronym_scenario_counterexample :
    (buildIndex lotrItem).Acronym ≠ "lotr".toList ∧
    (scoreAgainst (buildIndex lotrItem) ("lotr".toList)).AcronymMatch ≠ 0.8 := by
  constructor
  · with_unfolding_all decide
  · with_unfolding_all decide

/-- Claim C4 as amended: the stored acronym of `The Lord of the Rings` is
`lr` (stopwords `of`/`the`/`The` are skipped and only upper-case initials
contribute), the acronym of the query `lotr` is empty (its first letter is
lower-case), so the acronym component of this scenario is 0; acronym
matching itself is an exact equality test applied when the query acronym is
non-empty. -/
theorem acronym_scenario_amended :
    (buildIndex lotrItem).Acronym = "lr".toList ∧
    extractAcronym ("lotr".toList) = [] ∧
    (scoreAgainst (buildIndex lotrItem) ("lotr".toList)).AcronymMatch = 0 ∧
    (∀ (idx : SearchIndex TestItem) (qa : Str), qa ≠ [] → qa = idx.Acronym →
      acronymMatchScore idx qa = 0.8) := by
  refine ⟨by with_unfolding_all decide, by with_unfolding_all decide,
    by with_unfolding_all decide, fun idx qa h1 h2 => ?_⟩
  rw [acronymMatchScore, if_pos ⟨h1, h2⟩]

/-- Witness for the amended C4: the acronym test fires at `0.8` when the
query acronym equals the stored acronym `lr`. -/
theorem acronym_scenario_amended_witness :
    acronymMatchScore (buildIndex lotrItem) ("lr".toList) = 0.8 :=
  acronym_scenario_amended.2.2.2 (buildIndex lotrItem) ("lr".toList)
    (by with_unfolding_all decide) (by with_unfolding_all decide)

/-- Claim C1 fails on the code as stated: for the query `a` against the
item `a`, the final score (after the short-query exact-match bonus) is
`1.0`, while the weighted positive-component average is `491/500`. -/
theorem score_combination_counterexample :
    (scoreAgainst (buildIndex itemA) ("a".toList)).FinalScore ≠
      specFinalScore (componentsAgainst (buildIndex itemA) ("a".toList)) := by
  with_unfolding_all decide

/-- Claim C1 as amended: for every query and candidate, the final score as
first computed — before the two corrective bonuses — equals the weighted
sum of the strictly positive components divided by the sum of those
components' weights (exact 1.0, prefix 0.9, word 0.85, substring 0.75,
trigram 0.6, bigram 0.4, acronym 0.7, levenshtein 0.5); a zero-valued
component contributes to neither sum, and when no component is positive
this pre-bonus score is `0.0`. -/
theorem score_combination_amended {T : Type} (idx : SearchIndex T)
    (query : Str) :
    scorePreBonus (componentsAgainst idx query) =
      specFinalScore (componentsAgainst idx query) :=
  scorePreBonus_eq_spec (componentsAgainst idx query)

/-- Helper for claim C3: the lowercased text stored by `buildIndex` is the
lowercased normalization of the item's raw search text, which is also
exactly the processed query when the item's own text is the query. -/
lemma buildIndex_lowercaseText {T : Type} [Searchable T] (item : T) :
    (buildIndex item).LowercaseText =
      toLowerStr (normalizeText (Searchable.GetSearchText item)) := rfl

/-- Helper: a positive exact-match component alone makes `totalWeight`
positive. -/
lemma scoreTotalWeight_pos_of_exact (c : ScoreComponents)
    (h : 0 < c.ExactMatch) : 0 < scoreTotalWeight c := by
  apply scoreTotalWeight_pos
  intro hnil
  rw [specPositive, specComponentPairs, List.filter_eq_nil_iff] at hnil
  have hne : ¬0 < c.ExactMatch := by
    simpa using hnil (c.ExactMatch, 1.0) (by simp)
  exact hne h

/-- Helper: when the exact-match component is positive and the query has at
most 10 characters, the combination step returns exactly `1`. -/
lemma scorerCombine_exact_short (ql : Str) (c : ScoreComponents)
    (hlen : ql.length ≤ 10) (hex : 0 < c.ExactMatch) :
    scorerCombine ql c = 1 := by
  rw [scorerCombine, if_pos (scoreTotalWeight_pos_of_exact c hex)]
  simp only [if_pos (And.intro hlen hex)]
  split
  · rw [min_eq_right (by norm_num)]
    norm_num
  · norm_num

/-- Claim C3: scoring an item against a query equal to the item's own raw
search text yields final score exactly `1.0` whenever the normalized,
lowercased text has length at most 10: the exact-match component fires and
the short-query bonus forces the score to `1.0`. -/
theorem self_query_short_text_perfect_score {T : Type} [Searchable T]
    (item : T) (h : (buildIndex item).LowercaseText.length ≤ 10) :
    (scoreAgainst (buildIndex item)
      (Searchable.GetSearchText item)).FinalScore = 1 := by
  have hql : toLowerStr (normalizeText (Searchable.GetSearchText item)) =
      (buildIndex item).LowercaseText := rfl
  show scorerCombine (toLowerStr (normalizeText
    (Searchable.GetSearchText item)))
    (componentsAgainst (buildIndex item) (Searchable.GetSearchText item)) = 1
  have hex : (componentsAgainst (buildIndex item)
      (Searchable.GetSearchText item)).ExactMatch = 1 := by
    show exactMatchScore (buildIndex item)
      (toLowerStr (normalizeText (Searchable.GetSearchText item))) = 1
    rw [exactMatchScore, if_pos hql.symm]
    norm_num
  exact scorerCombine_exact_short _ _ (by rw [hql]; exact h)
    (by rw [hex]; norm_num)

/-- Witness for C3 at the item `Hi` (lowercased text `hi`, length 2). -/
theorem self_query_short_text_perfect_score_witness :
    (scoreAgainst (buildIndex itemHi)
      (Searchable.GetSearchText itemHi)).FinalScore = 1 :=
  self_query_short_text_perfect_score itemHi (by with_unfolding_all decide)

/-- The searcher of the below-threshold witness: one item `ab`, with the
(out-of-range, but accepted) minimum similarity 3. -/
def searcherAB : ImprovedSearcher TestItem := NewImprovedSearcher [itemAB] 3 false

/-- The request of the below-threshold witness. -/
def requestXY : SearchRequest TestItem := ⟨"xy".toList, none, none, none⟩

/-- Claim C2: a scored candidate enters the surviving-result list if and
only if its final score is at least `minSimilarity × 0.5`; when every
candidate scores strictly below that coarse threshold, `Search` returns the
error outcome `No matches found for '<query>'`, which carries no item. -/
theorem coarse_threshold_spec {T : Type} (is : ImprovedSearcher T)
    (req : SearchRequest T) :
    (∀ idx ∈ filterItems is req.Filters,
      ((idx, scoreAgainst idx req.Query) ∈
          thresholdResults is req.Query (filterItems is req.Filters) ↔
        is.minSimilarity * 0.5 ≤ (scoreAgainst idx req.Query).FinalScore)) ∧
    ((emptyResponse (noMatchesMessage req.Query) : SearchResponse T).Item =
      none) ∧
    (trimSpace req.Query ≠ [] → filterItems is req.Filters ≠ [] →
      (∀ idx ∈ filterItems is req.Filters,
        (scoreAgainst idx req.Query).FinalScore < is.minSimilarity * 0.5) →
      Search is req =
        .single (emptyResponse (noMatchesMessage req.Query))) := by
  refine ⟨fun idx hidx => ?_, rfl, fun htrim hcand hall => ?_⟩
  · rw [thresholdResults]
    constructor
    · intro hmem
      have := (List.mem_filter.mp hmem).2
      simpa using this
    · intro hle
      refine List.mem_filter.mpr ⟨List.mem_map.mpr ⟨idx, hidx, rfl⟩, ?_⟩
      simpa using hle
  · have hthr : thresholdResults is req.Query (filterItems is req.Filters)
        = [] := by
      rw [thresholdResults, List.filter_eq_nil_iff]
      intro r hr
      obtain ⟨idx, hidx, rfl⟩ := List.mem_map.mp hr
      simpa using not_le.mpr (hall idx hidx)
    have hres : searchResults is req = [] := by
      rw [searchResults, hthr]
      rfl
    have hcandb : ¬((filterItems is req.Filters).isEmpty = true) := by
      rw [List.isEmpty_iff]
      exact hcand
    simp only [Search]
    rw [if_neg htrim, if_neg hcandb, hres]
    simp [effectiveTopN]

/-- Witness for C2: with `minSimilarity = 3` the coarse threshold is `1.5`;
the sole candidate `ab` scores `0` against the query `xy`, so the search
reports `No matches found for 'xy'`. -/
theorem coarse_threshold_spec_witness :
    Search searcherAB requestXY =
      .single (emptyResponse (noMatchesMessage ("xy".toList))) :=
  (coarse_threshold_spec searcherAB requestXY).2.2
    (by with_unfolding_all decide) (by with_unfolding_all decide)
    (by with_unfolding_all decide)

/-- The clamped `topN` always lies in `[1, 10]`. -/
lemma clampTopN_bounds (t : Option ℤ) :
    1 ≤ clampTopN t ∧ clampTopN t ≤ 10 := by
  cases t with
  | none => simp [clampTopN]
  | some v =>
    simp only [clampTopN]
    split_ifs <;> omega

/-- The surviving-result list is sorted by final score descending. -/
lemma searchResults_sorted {T : Type} (is : ImprovedSearcher T)
    (req : SearchRequest T) :
    List.Sorted scoreOrder (searchResults is req) := by
  rw [searchResults]
  exact List.sorted_insertionSort _ _

/-- Every surviving result is a filtered candidate. -/
lemma mem_searchResults {T : Type} {is : ImprovedSearcher T}
    {req : SearchRequest T} {r : SearchIndex T × ScoreComponents}
    (hr : r ∈ searchResults is req) : r.1 ∈ filterItems is req.Filters := by
  rw [searchResults] at hr
  have hr2 : r ∈ thresholdResults is req.Query (filterItems is req.Filters) :=
    (List.perm_insertionSort scoreOrder _).subset hr
  rw [thresholdResults] at hr2
  obtain ⟨idx, hidx, rfl⟩ := List.mem_map.mp (List.mem_filter.mp hr2).1
  exact hidx

/-- A candidate surviving an explicit filter satisfies its predicate. -/
lemma filterItems_matches {T : Type} {is : ImprovedSearcher T}
    {flt : Filter T} {idx : SearchIndex T}
    (h : idx ∈ filterItems is (some flt)) :
    flt.Matches idx.Item = true := by
  simp only [filterItems] at h
  exact (List.mem_filter.mp h).2

/-- Mapping `Similarity` over the enumerated response list recovers the
final scores of the enumerated results. -/
lemma map_similarity_enum {T : Type}
    (l : List (SearchIndex T × ScoreComponents))
    (g : ℕ × (SearchIndex T × ScoreComponents) → SearchResponse T)
    (hg : ∀ p, (g p).Similarity = p.2.2.FinalScore) :
    List.map SearchResponse.Similarity (l.enum.map g) =
      l.map fun r => r.2.FinalScore := by
  rw [List.map_map]
  have hcomp : SearchResponse.Similarity ∘ g =
      (fun r : SearchIndex T × ScoreComponents => r.2.FinalScore) ∘
        Prod.snd := funext fun p => hg p
  rw [hcomp, ← List.map_map, List.enum_map_snd]

/-- If the candidate list is empty, so is the surviving-result list. -/
lemma searchResults_nil_of_no_candidates {T : Type}
    {is : ImprovedSearcher T} {req : SearchRequest T}
    (hc : filterItems is req.Filters = []) : searchResults is req = [] := by
  rw [searchResults, hc]
  rfl

/-- Claim C5: with at least one surviving candidate the effective `topN`
(default 1) lies in `[1, min(10, surviving count)]`; when it is 1 the call
returns a single-result outcome, and when it exceeds 1 a multi-result
outcome with exactly that many entries ordered by descending score. -/
theorem topn_clamping_spec {T : Type} (is : ImprovedSearcher T)
    (req : SearchRequest T) (htrim : trimSpace req.Query ≠ [])
    (hres : searchResults is req ≠ []) :
    (1 ≤ effectiveTopN req.TopN (searchResults is req).length ∧
      effectiveTopN req.TopN (searchResults is req).length ≤ 10 ∧
      effectiveTopN req.TopN (searchResults is req).length ≤
        (searchResults is req).length) ∧
    (effectiveTopN req.TopN (searchResults is req).length = 1 →
      ∃ r, Search is req = .single r ∧ r.Item.isSome = true ∧
        r.Error = []) ∧
    (1 < effectiveTopN req.TopN (searchResults is req).length →
      ∃ m, Search is req = .multi m ∧
        m.Results.length =
          effectiveTopN req.TopN (searchResults is req).length ∧
        (m.Results.map SearchResponse.Similarity).Sorted (· ≥ ·)) := by
  have hlenpos : 0 < (searchResults is req).length := List.length_pos.mpr hres
  have hcb := clampTopN_bounds req.TopN
  have hle : effectiveTopN req.TopN (searchResults is req).length ≤
      (searchResults is req).length := Nat.min_le_right _ _
  have hcand : ¬((filterItems is req.Filters).isEmpty = true) := by
    rw [List.isEmpty_iff]
    intro hc
    exact hres (searchResults_nil_of_no_candidates hc)
  refine ⟨⟨?_, ?_, hle⟩, fun h1 => ?_, fun hgt => ?_⟩
  · rw [effectiveTopN]
    have h1 : 1 ≤ (clampTopN req.TopN).toNat := by omega
    exact le_min h1 hlenpos
  · rw [effectiveTopN]
    have h10 : (clampTopN req.TopN).toNat ≤ 10 := by omega
    exact le_trans (Nat.min_le_left _ _) h10
  · simp only [Search]
    rw [if_neg htrim, if_neg hcand, h1]
    rw [if_neg (by omega : ¬(1 : ℕ) = 0), if_neg (by omega : ¬1 < (1 : ℕ))]
    obtain ⟨best, rest, hbr⟩ : ∃ b r, searchResults is req = b :: r := by
      cases hsr : searchResults is req with
      | nil => exact absurd hsr hres
      | cons b r => exact ⟨b, r, rfl⟩
    rw [hbr]
    exact ⟨_, rfl, rfl, rfl⟩
  · simp only [Search]
    rw [if_neg htrim, if_neg hcand]
    rw [if_neg (by omega :
      ¬effectiveTopN req.TopN (searchResults is req).length = 0),
      if_pos hgt]
    refine ⟨_, rfl, ?_, ?_⟩
    · simp only [List.length_map, List.enum_length, List.length_take]
      omega
    · rw [map_similarity_enum _ _ (fun p => rfl)]
      have htake : List.Pairwise scoreOrder
          ((searchResults is req).take
            (effectiveTopN req.TopN (searchResults is req).length)) :=
        List.Pairwise.sublist (List.take_sublist _ _)
          (searchResults_sorted is req)
      exact List.pairwise_map.mpr htake

/-- The searcher of the top-N witness: items `a`, `ab`, `b`, threshold 0. -/
def searcher3 : ImprovedSearcher TestItem :=
  NewImprovedSearcher [⟨"a".toList⟩, itemAB, ⟨"b".toList⟩] 0 false

/-- The request of the top-N witness: query `a`, `topN = 2`. -/
def requestA2 : SearchRequest TestItem := ⟨"a".toList, none, some 2, none⟩

/-- Witness for C5: query `a` over three candidates with `topN = 2` yields
a multi-result outcome with exactly 2 entries in descending score order. -/
theorem topn_clamping_spec_witness :
    ∃ m, Search searcher3 requestA2 = .multi m ∧
      m.Results.length =
        effectiveTopN requestA2.TopN
          (searchResults searcher3 requestA2).length ∧
      (m.Results.map SearchResponse.Similarity).Sorted (· ≥ ·) :=
  (topn_clamping_spec searcher3 requestA2 (by with_unfolding_all decide)
    (by with_unfolding_all decide)).2.2 (by with_unfolding_all decide)

/-- Claim C9: when a filter is supplied, every item surfaced by `Search` —
the single best match or any entry of the multi-result list — satisfies the
filter's predicate. -/
theorem filter_soundness {T : Type} (is : ImprovedSearcher T)
    (req : SearchRequest T) (flt : Filter T) (hf : req.Filters = some flt) :
    (∀ r, Search is req = .single r → ∀ item, r.Item = some item →
      flt.Matches item = true) ∧
    (∀ m, Search is req = .multi m → ∀ resp ∈ m.Results, ∀ item,
      resp.Item = some item → flt.Matches item = true) := by
  constructor
  · intro r hr item hitem
    simp only [Search] at hr
    split at hr
    · cases hr
      simp [emptyResponse] at hitem
    · split at hr
      · cases hr
        simp [emptyResponse] at hitem
      · split at hr
        · cases hr
          simp [emptyResponse] at hitem
        · split at hr
          · exact absurd hr (by simp)
          · split at hr
            · cases hr
              simp [emptyResponse] at hitem
            · rename_i best rest hbr
              cases hr
              simp only [] at hitem
              obtain rfl := Option.some.inj hitem
              have hmem : best ∈ searchResults is req := by
                rw [hbr]
                exact List.mem_cons_self _ _
              have := mem_searchResults hmem
              rw [hf] at this
              exact filterItems_matches this
  · intro m hm resp hresp item hitem
    simp only [Search] at hm
    split at hm
    · exact absurd hm (by simp)
    · split at hm
      · exact absurd hm (by simp)
      · split at hm
        · exact absurd hm (by simp)
        · split at hm
          · cases hm
            simp only [] at hresp
            obtain ⟨p, hp, rfl⟩ := List.mem_map.mp hresp
            simp only [] at hitem
            obtain rfl := Option.some.inj hitem
            have hsnd : p.2 ∈ (searchResults is req).take
                (effectiveTopN req.TopN (searchResults is req).length) := by
              have hmm := List.mem_map_of_mem Prod.snd hp
              rwa [List.enum_map_snd] at hmm
            have hmem : p.2 ∈ searchResults is req :=
              List.mem_of_mem_take hsnd
            have := mem_searchResults hmem
            rw [hf] at this
            exact filterItems_matches this
          · split at hm
            · exact absurd hm (by simp)
            · exact absurd hm (by simp)

/-- The filter of the C9 witness: only items whose text is `a`. -/
def filterOnlyA : Filter TestItem :=
  ⟨fun it => it.text == ("a".toList), "text a".toList⟩

/-- The request of the C9 witness. -/
def requestAFiltered : SearchRequest TestItem :=
  ⟨"a".toList, some filterOnlyA, none, none⟩

/-- Witness for C9 at a concrete filtered search. -/
theorem filter_soundness_witness :
    (∀ r, Search searcher3 requestAFiltered = .single r → ∀ item,
      r.Item = some item → filterOnlyA.Matches item = true) ∧
    (∀ m, Search searcher3 requestAFiltered = .multi m → ∀ resp ∈ m.Results,
      ∀ item, resp.Item = some item → filterOnlyA.Matches item = true) :=
  filter_soundness searcher3 requestAFiltered filterOnlyA rfl

section Levenshtein

/-- Unfolding of `lev` on the empty first string. -/
lemma lev_nil_left (ys : Str) : lev [] ys = ys.length := by
  rw [lev]

/-- Unfolding of `lev` on the empty second string. -/
lemma lev_nil_right (xs : Str) : lev xs [] = xs.length := by
  cases xs <;> simp [lev]

/-- Unfolding of `lev` on two non-empty strings. -/
lemma lev_cons (x : Char) (xs : Str) (y : Char) (ys : Str) :
    lev (x :: xs) (y :: ys) =
      min (min (lev xs (y :: ys) + 1) (lev (x :: xs) ys + 1))
        (lev xs ys + levCost x y) := by
  rw [lev]

/-- The substitution cost is symmetric. -/
lemma levCost_comm (x y : Char) : levCost x y = levCost y x := by
  unfold levCost
  by_cases h : x = y
  · rw [if_pos h, if_pos h.symm]
  · rw [if_neg h, if_neg fun hh => h hh.symm]

/-- The substitution cost satisfies the triangle inequality. -/
lemma levCost_triangle (a b c : Char) :
    levCost a c ≤ levCost a b + levCost b c := by
  unfold levCost
  rcases eq_or_ne a b with rfl | hab
  · rcases eq_or_ne a c with rfl | hac
    · simp
    · rw [if_neg hac, if_pos rfl]
  · rw [if_neg hab]
    split_ifs <;> omega

/-- Distance of a string to itself is zero. -/
lemma lev_self (a : Str) : lev a a = 0 := by
  induction a with
  | nil => rw [lev_nil_left]; rfl
  | cons x xs ih =>
    rw [lev_cons, ih]
    have hc : levCost x x = 0 := by unfold levCost; rw [if_pos rfl]
    rw [hc]
    omega

/-- The reference recursion is symmetric. -/
lemma lev_comm (a b : Str) : lev a b = lev b a := by
  suffices H : ∀ n (a b : Str), a.length + b.length ≤ n → lev a b = lev b a by
    exact H (a.length + b.length) a b le_rfl
  intro n
  induction n with
  | zero =>
    intro a b h
    cases a with
    | nil =>
      cases b with
      | nil => rfl
      | cons y ys => simp at h
    | cons x xs => simp at h
  | succ n ih =>
    intro a b h
    cases a with
    | nil => rw [lev_nil_left, lev_nil_right]
    | cons x xs =>
      cases b with
      | nil => rw [lev_nil_left, lev_nil_right]
      | cons y ys =>
        simp only [List.length_cons] at h
        rw [lev_cons, lev_cons,
          ih xs (y :: ys) (by simp; omega),
          ih (x :: xs) ys (by simp; omega),
          ih xs ys (by omega),
          levCost_comm]
        omega

/-- Appending one character to the second string costs at most one edit. -/
lemma lev_le_ins (xs : Str) (y : Char) (ys : Str) :
    lev xs (y :: ys) ≤ lev xs ys + 1 := by
  cases xs with
  | nil => rw [lev_nil_left, lev_nil_left]; simp
  | cons x xs' =>
    rw [lev_cons]
    exact le_trans (min_le_left _ _) (min_le_right _ _)

/-- Appending one character to the first string costs at most one edit. -/
lemma lev_le_del (x : Char) (xs ys : Str) :
    lev (x :: xs) ys ≤ lev xs ys + 1 := by
  cases ys with
  | nil => rw [lev_nil_right, lev_nil_right]; simp
  | cons y ys' =>
    rw [lev_cons]
    exact le_trans (min_le_left _ _) (min_le_left _ _)

/-- Extending both strings costs at most the substitution cost. -/
lemma lev_le_sub (x : Char) (xs : Str) (y : Char) (ys : Str) :
    lev (x :: xs) (y :: ys) ≤ lev xs ys + levCost x y := by
  rw [lev_cons]
  exact min_le_right _ _

/-- An alignment (edit script) between two strings together with its cost:
insert a character of the target, delete a character of the source, or align
two characters at substitution cost. -/
inductive Aligns : Str → Str → ℕ → Prop where
  | nil : Aligns [] [] 0
  | ins (y : Char) {xs ys : Str} {n : ℕ} :
      Aligns xs ys n → Aligns xs (y :: ys) (n + 1)
  | del (x : Char) {xs ys : Str} {n : ℕ} :
      Aligns xs ys n → Aligns (x :: xs) ys (n + 1)
  | sub (x y : Char) {xs ys : Str} {n : ℕ} :
      Aligns xs ys n → Aligns (x :: xs) (y :: ys) (n + levCost x y)

/-- The empty string aligns with any string at its length. -/
lemma aligns_nil_left (ys : Str) : Aligns [] ys ys.length := by
  induction ys with
  | nil => exact .nil
  | cons y ys ih => exact .ins y ih

/-- Any string aligns with the empty string at its length. -/
lemma aligns_nil_right (xs : Str) : Aligns xs [] xs.length := by
  induction xs with
  | nil => exact .nil
  | cons x xs ih => exact .del x ih

/-- Realizability: the recursive distance is achieved by an alignment. -/
lemma lev_aligns (a b : Str) : Aligns a b (lev a b) := by
  suffices H : ∀ n (a b : Str), a.length + b.length ≤ n →
      Aligns a b (lev a b) by
    exact H (a.length + b.length) a b le_rfl
  intro n
  induction n with
  | zero =>
    intro a b h
    cases a with
    | nil =>
      cases b with
      | nil => rw [lev_nil_left]; exact .nil
      | cons y ys => simp at h
    | cons x xs => simp at h
  | succ n ih =>
    intro a b h
    cases a with
    | nil => rw [lev_nil_left]; exact aligns_nil_left b
    | cons x xs =>
      cases b with
      | nil => rw [lev_nil_right]; exact aligns_nil_right _
      | cons y ys =>
        simp only [List.length_cons] at h
        rw [lev_cons]
        rcases le_or_lt (min (lev xs (y :: ys) + 1) (lev (x :: xs) ys + 1))
          (lev xs ys + levCost x y) with hm | hm
        · rw [min_eq_left hm]
          rcases le_or_lt (lev xs (y :: ys) + 1) (lev (x :: xs) ys + 1)
            with hm2 | hm2
          · rw [min_eq_left hm2]
            exact .del x (ih xs (y :: ys) (by simp; omega))
          · rw [min_eq_right hm2.le]
            exact .ins y (ih (x :: xs) ys (by simp; omega))
        · rw [min_eq_right hm.le]
          exact .sub x y (ih xs ys (by omega))

/-- Optimality: the recursive distance is a lower bound on every
alignment's cost. -/
lemma aligns_lev_le {a b : Str} {n : ℕ} (h : Aligns a b n) : lev a b ≤ n := by
  induction h with
  | nil => rw [lev_nil_left]; rfl
  | @ins y xs ys n h ih => exact le_trans (lev_le_ins xs y ys) (by omega)
  | @del x xs ys n h ih => exact le_trans (lev_le_del x xs ys) (by omega)
  | @sub x y xs ys n h ih => exact le_trans (lev_le_sub x xs y ys) (by omega)

/-- Composition of alignments when the second derivation deletes the head
of the middle string. -/
lemma aligns_comp_del {bs c : Str} {w : ℕ}
    (hIH : ∀ (a : Str) (m : ℕ), Aligns a bs m →
      ∃ k, k ≤ m + w ∧ Aligns a c k) (x : Char) :
    ∀ {a l : Str} {m : ℕ}, Aligns a l m → l = x :: bs →
      ∃ k, k ≤ m + (w + 1) ∧ Aligns a c k := by
  intro a l m h
  induction h with
  | nil => intro heq; exact absurd heq (by simp)
  | @ins y xs ys n h ih =>
    intro heq
    injection heq with hy hys
    rw [hys] at h
    obtain ⟨k, hk, hal⟩ := hIH xs n h
    exact ⟨k, by omega, hal⟩
  | @del z xs ys n h ih =>
    intro heq
    obtain ⟨k, hk, hal⟩ := ih heq
    exact ⟨k + 1, by omega, .del z hal⟩
  | @sub z y xs ys n h ih =>
    intro heq
    injection heq with hy hys
    rw [hys] at h
    obtain ⟨k, hk, hal⟩ := hIH xs n h
    exact ⟨k + 1, by omega, .del z hal⟩

/-- Composition of alignments when the second derivation substitutes the
head of the middle string. -/
lemma aligns_comp_sub {bs ys : Str} {w : ℕ} (x y : Char)
    (hIH : ∀ (a : Str) (m : ℕ), Aligns a bs m →
      ∃ k, k ≤ m + w ∧ Aligns a ys k) :
    ∀ {a l : Str} {m : ℕ}, Aligns a l m → l = x :: bs →
      ∃ k, k ≤ m + (w + levCost x y) ∧ Aligns a (y :: ys) k := by
  intro a l m h
  induction h with
  | nil => intro heq; exact absurd heq (by simp)
  | @ins y' xs ys' n h ih =>
    intro heq
    injection heq with hy hys
    rw [hys] at h
    obtain ⟨k, hk, hal⟩ := hIH xs n h
    exact ⟨k + 1, by omega, .ins y hal⟩
  | @del z xs ys' n h ih =>
    intro heq
    obtain ⟨k, hk, hal⟩ := ih heq
    exact ⟨k + 1, by omega, .del z hal⟩
  | @sub z y' xs ys' n h ih =>
    intro heq
    injection heq with hy hys
    rw [hys] at h
    obtain ⟨k, hk, hal⟩ := hIH xs n h
    have ht := levCost_triangle z x y
    have hm : levCost z y' = levCost z x := by rw [hy]
    exact ⟨k + levCost z y, by omega, .sub z y hal⟩

/-- Alignments compose: an alignment of `a` with `b` and one of `b` with
`c` yield an alignment of `a` with `c` of at most the summed cost. -/
lemma aligns_comp {b c : Str} {n : ℕ} (h2 : Aligns b c n) :
    ∀ {a : Str} {m : ℕ}, Aligns a b m → ∃ k, k ≤ m + n ∧ Aligns a c k := by
  induction h2 with
  | nil => exact fun h1 => ⟨_, by omega, h1⟩
  | @ins y bs ys w h2' ih =>
    intro a m h1
    obtain ⟨k, hk, hal⟩ := ih h1
    exact ⟨k + 1, by omega, .ins y hal⟩
  | @del x bs ys w h2' ih =>
    intro a m h1
    exact aligns_comp_del (fun a m h => ih h) x h1 rfl
  | @sub x y bs ys w h2' ih =>
    intro a m h1
    exact aligns_comp_sub x y (fun a m h => ih h) h1 rfl

/-- Triangle inequality for the reference recursion. -/
lemma lev_triangle (a b c : Str) : lev a c ≤ lev a b + lev b c := by
  obtain ⟨k, hk, hal⟩ := aligns_comp (lev_aligns b c) (lev_aligns a b)
  exact le_trans (aligns_lev_le hal) hk

/-- Unfolding of one interior cell of the fuelled matrix evaluation. -/
lemma levMF_succ (s1 s2 : Str) (f i j : ℕ) :
    levMF s1 s2 (f + 1) (i + 1) (j + 1) =
      min (min (levMF s1 s2 f i (j + 1) + 1) (levMF s1 s2 f (i + 1) j + 1))
        (levMF s1 s2 f i j + levCost (s1.getD i ' ') (s2.getD j ' ')) := rfl

/-- The fuelled matrix evaluation is fuel-independent once the fuel covers
`i + j`. -/
lemma levMF_stable (s1 s2 : Str) :
    ∀ f g i j : ℕ, i + j ≤ f → i + j ≤ g →
      levMF s1 s2 f i j = levMF s1 s2 g i j := by
  intro f
  induction f with
  | zero =>
    intro g i j hf hg
    obtain ⟨rfl, rfl⟩ : i = 0 ∧ j = 0 := by omega
    cases g <;> rfl
  | succ f ih =>
    intro g i j hf hg
    rcases g with _ | g
    · obtain ⟨rfl, rfl⟩ : i = 0 ∧ j = 0 := by omega
      rfl
    · rcases i with _ | i
      · rfl
      · rcases j with _ | j
        · rfl
        · rw [levMF_succ s1 s2 f i j, levMF_succ s1 s2 g i j,
            ih g i (j + 1) (by omega) (by omega),
            ih g (i + 1) j (by omega) (by omega),
            ih g i j (by omega) (by omega)]

/-- Base column of the matrix: `dist[0][j] = j`. -/
lemma levMatrix_zero_left (s1 s2 : Str) (j : ℕ) :
    levMatrix s1 s2 0 j = j := by
  rw [levMatrix]
  cases j <;> rfl

/-- Base row of the matrix: `dist[i][0] = i`. -/
lemma levMatrix_zero_right (s1 s2 : Str) (i : ℕ) :
    levMatrix s1 s2 i 0 = i := by
  rw [levMatrix]
  cases i <;> rfl

/-- Interior recurrence of the matrix, exactly as filled by the source
loop. -/
lemma levMatrix_succ (s1 s2 : Str) (i j : ℕ) :
    levMatrix s1 s2 (i + 1) (j + 1) =
      min (min (levMatrix s1 s2 i (j + 1) + 1)
          (levMatrix s1 s2 (i + 1) j + 1))
        (levMatrix s1 s2 i j + levCost (s1.getD i ' ') (s2.getD j ' ')) := by
  rw [levMatrix]
  have h : (i + 1) + (j + 1) = (i + j + 1) + 1 := by omega
  rw [h, levMF_succ s1 s2 (i + j + 1) i j, levMatrix, levMatrix, levMatrix,
    levMF_stable s1 s2 (i + j + 1) (i + (j + 1)) i (j + 1) (by omega)
      (by omega),
    levMF_stable s1 s2 (i + j + 1) (i + 1 + j) (i + 1) j (by omega)
      (by omega),
    levMF_stable s1 s2 (i + j + 1) (i + j) i j (by omega) (by omega)]

/-- Reversing a one-longer prefix prepends the next character. -/
lemma reverse_take_succ (s : Str) (i : ℕ) (h : i < s.length) :
    (s.take (i + 1)).reverse = s.getD i ' ' :: (s.take i).reverse := by
  rw [List.take_succ]
  have hget : s[i]? = some s[i] := List.getElem?_eq_getElem h
  rw [hget]
  simp [List.reverse_append, List.getD_eq_getElem?_getD, hget]

/-- The matrix cell `dist[i][j]` is the reference distance of the reversed
prefixes of lengths `i` and `j`. -/
lemma levMatrix_eq_lev (s1 s2 : Str) :
    ∀ i j, i ≤ s1.length → j ≤ s2.length →
      levMatrix s1 s2 i j = lev (s1.take i).reverse (s2.take j).reverse := by
  intro i
  induction i with
  | zero =>
    intro j _ hj
    rw [levMatrix_zero_left]
    simp only [List.take_zero, List.reverse_nil, lev_nil_left,
      List.length_reverse, List.length_take]
    omega
  | succ i ihi =>
    intro j
    induction j with
    | zero =>
      intro hi _
      rw [levMatrix_zero_right]
      simp only [List.take_zero, List.reverse_nil, lev_nil_right,
        List.length_reverse, List.length_take]
      omega
    | succ j ihj =>
      intro hi hj
      rw [levMatrix_succ,
        ihi (j + 1) (by omega) hj,
        ihj (by omega) (by omega),
        ihi j (by omega) (by omega),
        reverse_take_succ s1 i (by omega), reverse_take_succ s2 j (by omega),
        lev_cons]

/-- `calculateLevenshteinDistance` computes the reference Levenshtein
distance (of the reversed strings, which is the same function of the
underlying strings). -/
lemma calculateLevenshteinDistance_eq_lev (s1 s2 : Str) :
    calculateLevenshteinDistance s1 s2 = lev s1.reverse s2.reverse := by
  rw [calculateLevenshteinDistance]
  by_cases h : s1 = s2
  · rw [if_pos h, h, lev_self]
  · rw [if_neg h]
    by_cases h1 : s1.length = 0
    · rw [if_pos h1]
      obtain rfl := List.length_eq_zero.mp h1
      rw [List.reverse_nil, lev_nil_left, List.length_reverse]
    · rw [if_neg h1]
      by_cases h2 : s2.length = 0
      · rw [if_pos h2]
        obtain rfl := List.length_eq_zero.mp h2
        rw [List.reverse_nil, lev_nil_right, List.length_reverse]
      · rw [if_neg h2,
          levMatrix_eq_lev s1 s2 s1.length s2.length le_rfl le_rfl,
          List.take_length, List.take_length]

end Levenshtein

/-- Claim C8: the Levenshtein-distance calculator is symmetric, returns 0
on equal inputs, and satisfies the triangle inequality. -/
theorem levenshtein_metric_properties (a b c : Str) :
    calculateLevenshteinDistance a b = calculateLevenshteinDistance b a ∧
    calculateLevenshteinDistance a a = 0 ∧
    calculateLevenshteinDistance a c ≤
      calculateLevenshteinDistance a b + calculateLevenshteinDistance b c := by
  refine ⟨?_, ?_, ?_⟩
  · rw [calculateLevenshteinDistance_eq_lev,
      calculateLevenshteinDistance_eq_lev]
    exact lev_comm _ _
  · rw [calculateLevenshteinDistance, if_pos rfl]
  · rw [calculateLevenshteinDistance_eq_lev,
      calculateLevenshteinDistance_eq_lev,
      calculateLevenshteinDistance_eq_lev]
    exact lev_triangle _ _ _

end Beacon
